import Mathlib

/-!
Verification of the ledger/currency-conversion logic of a personal finance
tracker (Express + Mongoose backend).

The development shallowly embeds the relevant JavaScript modules:

* `backend/utils/currencyConverter.js` (the dated-rate version): the
  exchange-rate table, `getRatesForDate`, `convertCurrency`,
  `getExchangeRateToUSD`.
* `backend/models/Borrowing.js`: the `pre('save')` status hook.
* `backend/routes/borrowings.js` (minor-unit version): the PUT update route,
  the POST payment route, and the overdue upgrade performed by GET reads.
* `backend/routes/transactions.js`: POST (create), PUT (update) and DELETE
  routes together with their balance mutations, run inside a Mongo
  multi-document transaction (`session.withTransaction`), which aborts all
  writes when the route body throws.

Modelling conventions: JavaScript numbers are embedded as exact rationals
(`ℚ`); monetary values in minor units are integers (`ℤ`); dates are epoch
milliseconds (`ℤ`); `Math.round` is `⌊x + 1/2⌋` (round half toward +∞);
thrown errors are `Except` errors; a Mongoose `withTransaction` abort leaves
the stored state unchanged.  Fields that never influence balances or
statuses (descriptions, categories, counterparties, owner ids, audit
timestamps, the stored USD-equivalent fields) are not tracked.
-/

deriving instance DecidableEq for Except

namespace FinTracker

/-- JavaScript `Math.round`: rounds half toward positive infinity. -/
def jsRound (q : ℚ) : ℤ := ⌊q + 1/2⌋

/-! ## Currency converter (`backend/utils/currencyConverter.js`, dated-rate version) -/

/-- A rate table: a JS object mapping currency-code strings to numeric rates
(units of the currency per 1 USD). -/
abbrev RateTable := List (String × ℚ)

def msPerDay : ℤ := 86400000

/-- `exchangeRates.current`: `{ USD: 1.0, EUR: 0.92, AZN: 1.7015 }`. -/
def currentRates : RateTable := [("USD", 1), ("EUR", 92/100), ("AZN", 17015/10000)]

/-- `exchangeRates.current.lastUpdated = new Date('2025-08-19')` in epoch ms. -/
def currentLastUpdated : ℤ := 20319 * msPerDay

/-- First `exchangeRates.historical` entry, dated `2025-08-01`. -/
def hist1Date : ℤ := 20301 * msPerDay

/-- Rates of the first historical entry: `{ USD: 1.0, EUR: 0.92, AZN: 1.7015 }`. -/
def hist1Rates : RateTable := [("USD", 1), ("EUR", 92/100), ("AZN", 17015/10000)]

/-- Second `exchangeRates.historical` entry, dated `2025-07-01`. -/
def hist2Date : ℤ := 20270 * msPerDay

/-- Rates of the second historical entry: `{ USD: 1.0, EUR: 0.91, AZN: 1.70 }`. -/
def hist2Rates : RateTable := [("USD", 1), ("EUR", 91/100), ("AZN", 170/100)]

/-- The `exchangeRates.historical` array. -/
def historical : List (ℤ × RateTable) := [(hist1Date, hist1Rates), (hist2Date, hist2Rates)]

/-- All dated rate entries the nearest-neighbour search ranges over: the
current entry (dated by `lastUpdated`) followed by the historical entries. -/
def rateEntries : List (ℤ × RateTable) := (currentLastUpdated, currentRates) :: historical

/-- `getRatesForDate(date)` for a valid `Date` argument: start from the
current entry and scan `exchangeRates.historical`, keeping the entry whose
date is strictly closer to the target (ties keep the earlier candidate). -/
def getRatesForDate (date : ℤ) : RateTable :=
  (historical.foldl
    (fun acc h => if |date - h.1| < acc.2 then (h.2, |date - h.1|) else acc)
    (currentRates, |date - currentLastUpdated|)).1

/-- `rates[c]` on a JS object: `none` models `undefined`. -/
def rateLookup (rates : RateTable) (c : String) : Option ℚ := rates.lookup c

/-- JS truthiness of a rate lookup: `undefined` and `0` are falsy. -/
def truthyRate : Option ℚ → Bool
  | none => false
  | some q => q != 0

/-- Errors thrown by `convertCurrency`. -/
inductive ConvError
  | notInteger
  | missingCurrencyArg
  | rateNotAvailable
deriving DecidableEq, Repr

/-- The object returned by `convertCurrency` (the fields the callers read).
`exchangeRateToUSD` is `none` in the same-currency branch, where the source
omits the field. -/
structure ConvResult where
  amountInMinorUnits : ℤ
  exchangeRate : ℚ
  exchangeRateToUSD : Option ℚ
deriving DecidableEq, Repr

/-- `convertCurrency(amountInMinorUnits, fromCurrency, toCurrency, date)`:
validates that the amount is an integer and both currency codes are truthy,
short-circuits the same-currency case, then converts through USD using the
rate table resolved for `date`, rounding with `Math.round`. -/
def convertCurrency (amount : ℚ) (fromCurrency toCurrency : String) (date : ℤ) :
    Except ConvError ConvResult :=
  if amount.den ≠ 1 then .error .notInteger
  else if fromCurrency = "" ∨ toCurrency = "" then .error .missingCurrencyArg
  else if fromCurrency = toCurrency then
    .ok ⟨amount.num, 1, none⟩
  else
    let rates := getRatesForDate date
    match rateLookup rates fromCurrency, rateLookup rates toCurrency with
    | some rf, some rt =>
      if rf = 0 ∨ rt = 0 then .error .rateNotAvailable
      else .ok ⟨jsRound (amount / rf * rt), rt / rf, some rf⟩
    | some rf, none =>
      let _ := rf
      .error .rateNotAvailable
    | none, _ => .error .rateNotAvailable

/-- `getExchangeRateToUSD(currency, date)`: `rates[currency] || null`; the
caller-side falsiness test is `truthyRate`. -/
def getExchangeRateToUSD (currency : String) (date : ℤ) : Option ℚ :=
  rateLookup (getRatesForDate date) currency

/-- The three currency codes present in every rate table. -/
def supported : List String := ["USD", "EUR", "AZN"]

/-! ## Borrowings (`backend/models/Borrowing.js` and `backend/routes/borrowings.js`) -/

/-- The `status` enum of the borrowing schema. -/
inductive BStatus
  | pending
  | partially_paid
  | paid
  | overdue
deriving DecidableEq, Repr

/-- A borrowing record (the status-relevant fields). -/
structure Borrowing where
  amountInMinorUnits : ℤ
  paidAmountInMinorUnits : ℤ
  dueDate : Option ℤ
  status : BStatus
deriving DecidableEq, Repr

/-- `dueDate && dueDate < now` — the record has a due date that has elapsed. -/
def dueElapsed (dueDate : Option ℤ) (now : ℤ) : Bool :=
  match dueDate with
  | some d => d < now
  | none => false

/-- The `borrowingSchema.pre('save')` hook: sets `paid` / `partially_paid` /
`overdue` from the paid amount and due date.  Note there is no final `else`
branch: when the paid amount is not positive and no due date has elapsed the
previous status is kept. -/
def preSave (b : Borrowing) (now : ℤ) : Borrowing :=
  if b.paidAmountInMinorUnits ≥ b.amountInMinorUnits then { b with status := .paid }
  else if b.paidAmountInMinorUnits > 0 then { b with status := .partially_paid }
  else
    match b.dueDate with
    | some due => if now > due then { b with status := .overdue } else b
    | none => b

/-- The pure status function of spec §4.3, written from the spec's words for
comparison with the code: `paid` if paidAmount ≥ principal; else
`partially_paid` if paidAmount > 0; else `overdue` if the due date has
elapsed; else `pending`. -/
def specStatus (paidAmount principal : ℤ) (dueDate : Option ℤ) (now : ℤ) : BStatus :=
  if paidAmount ≥ principal then .paid
  else if paidAmount > 0 then .partially_paid
  else if dueElapsed dueDate now then .overdue
  else .pending

/-- Errors surfaced by the borrowing routes. -/
inductive BError
  | validationFailed
  | invalidAmount
  | alreadyPaid
  | exceedsBorrowed
deriving DecidableEq, Repr

/-- The body of a borrowings PUT request (the fields that affect the claims;
`description` is not tracked).  `dueDate = some none` models sending a falsy
`dueDate`, which the route stores as `undefined`. -/
structure BUpdate where
  paidAmount : Option ℚ
  dueDate : Option (Option ℤ)
  status : Option BStatus
deriving DecidableEq, Repr

/-- `POST /api/borrowings`: `borrowingValidation.create` requires a positive
amount (the string-based decimal-place cap and the 10⁹ ceiling are not
modelled); the route rounds it to minor units, stores `status: 'pending'`
and `paidAmountInMinorUnits: 0`, and saves (running the pre-save hook).
The currency conversion performed for the stored USD equivalent cannot throw
(the validated currency is always in the rate table) and its result is not
tracked. -/
def createBorrowing (amount : ℚ) (dueDate : Option ℤ) (now : ℤ) : Except BError Borrowing :=
  if amount ≤ 0 then .error .validationFailed
  else
    .ok (preSave
      { amountInMinorUnits := jsRound (amount * 100)
        paidAmountInMinorUnits := 0
        dueDate := dueDate
        status := .pending } now)

/-- The `updates.paidAmount !== undefined` block of the borrowings PUT route:
reject a paid amount above the principal, otherwise store it and recompute
the status (leaving it untouched when the new paid amount is not positive). -/
def putPaidBlock (b : Borrowing) (pm : ℤ) : Except BError Borrowing :=
  if pm > b.amountInMinorUnits then .error .exceedsBorrowed
  else
    .ok { b with
      paidAmountInMinorUnits := pm
      status :=
        if pm ≥ b.amountInMinorUnits then .paid
        else if pm > 0 then .partially_paid
        else b.status }

/-- The tail of the borrowings PUT route after the paid-amount block:
due-date update, manual status update (only when `updates.paidAmount` is
falsy), the pre-save overdue check, and the save (pre-save hook). -/
def putTail (b1 : Borrowing) (u : BUpdate) (now : ℤ) : Borrowing :=
  let b2 : Borrowing :=
    match u.dueDate with
    | some dd => { b1 with dueDate := dd }
    | none => b1
  let b3 : Borrowing :=
    match u.status with
    | some st =>
      if u.paidAmount = none ∨ u.paidAmount = some 0 then { b2 with status := st } else b2
    | none => b2
  let b4 : Borrowing :=
    if dueElapsed b3.dueDate now ∧ b3.status = .pending then { b3 with status := .overdue }
    else b3
  preSave b4 now

/-- `PUT /api/borrowings/:id`: optional paid-amount update (validated
nonnegative by `borrowingValidation.update`, and rejected above the
principal), then the remaining updates and the save. -/
def putBorrowing (b : Borrowing) (u : BUpdate) (now : ℤ) : Except BError Borrowing :=
  match u.paidAmount with
  | some pa =>
    if pa < 0 then .error .validationFailed
    else
      match putPaidBlock b (jsRound (pa * 100)) with
      | .error e => .error e
      | .ok b1 => .ok (putTail b1 u now)
  | none => .ok (putTail b u now)

/-- `POST /api/borrowings/:id/payment`: reject a non-positive amount, reject
when the record is already `paid`, reject when the rounded increment would
push the paid amount above the principal; otherwise add the increment, set
the status, and save (pre-save hook). -/
def paymentBorrowing (b : Borrowing) (amount : ℚ) (now : ℤ) : Except BError Borrowing :=
  if amount ≤ 0 then .error .invalidAmount
  else if b.status = .paid then .error .alreadyPaid
  else
    let paymentInMinorUnits := jsRound (amount * 100)
    let newPaidAmount := b.paidAmountInMinorUnits + paymentInMinorUnits
    if newPaidAmount > b.amountInMinorUnits then .error .exceedsBorrowed
    else
      .ok (preSave
        { b with
          paidAmountInMinorUnits := newPaidAmount
          status :=
            if newPaidAmount ≥ b.amountInMinorUnits then .paid else .partially_paid } now)

/-- The overdue upgrade both GET routes perform before responding: a
`pending` record whose due date has elapsed is set to `overdue` and saved;
every other record is returned untouched. -/
def readBorrowing (b : Borrowing) (now : ℤ) : Borrowing :=
  if b.status = .pending ∧ dueElapsed b.dueDate now then
    preSave { b with status := .overdue } now
  else b

/-- A write operation on a borrowing record (`create` ignores the prior
record). -/
inductive BWriteOp
  | create (amount : ℚ) (dueDate : Option ℤ)
  | put (u : BUpdate)
  | payment (amount : ℚ)

/-- Run one borrowing write at time `now`. -/
def applyBWrite (op : BWriteOp) (b : Borrowing) (now : ℤ) : Except BError Borrowing :=
  match op with
  | .create amount dueDate => createBorrowing amount dueDate now
  | .put u => putBorrowing b u now
  | .payment amount => paymentBorrowing b amount now

/-- Borrowing records reachable through the API: created by POST, then
transformed by PUT updates, payments, and the GET overdue upgrade. -/
inductive BReachable : Borrowing → Prop
  | create (amount : ℚ) (dueDate : Option ℤ) (now : ℤ) (b : Borrowing) :
      createBorrowing amount dueDate now = .ok b → BReachable b
  | put (b b' : Borrowing) (u : BUpdate) (now : ℤ) :
      BReachable b → putBorrowing b u now = .ok b' → BReachable b'
  | payment (b b' : Borrowing) (amount : ℚ) (now : ℤ) :
      BReachable b → paymentBorrowing b amount now = .ok b' → BReachable b'
  | read (b : Borrowing) (now : ℤ) :
      BReachable b → BReachable (readBorrowing b now)

/-! ## Transactions and account balances (`backend/routes/transactions.js`)

The routes are modelled against a single account (every route resolves the
account referenced by the transaction; ownership scoping and the not-found
paths for foreign accounts are orthogonal to the balance claims). -/

/-- An account (the ledger-relevant fields).  `type` is the account
category: checking / savings / credit / investment / cash. -/
structure Account where
  balanceInMinorUnits : ℤ
  currency : String
  type : String
  isActive : Bool
deriving DecidableEq, Repr

/-- A stored transaction (the balance-relevant fields).  The stored
`exchangeRateToUSD` and `amountInUSDMinorUnits` are write-only for the
ledger and are not tracked. -/
structure Tx where
  id : ℕ
  type : String
  amountInMinorUnits : ℤ
  currency : String
  date : ℤ
deriving DecidableEq, Repr

/-- The account document plus its transaction collection. -/
structure LedgerState where
  account : Account
  txs : List Tx
deriving DecidableEq, Repr

/-- Errors thrown inside the transaction routes (aborting the Mongo
multi-document transaction). -/
inductive TxError
  | validationFailed
  | accountInactive
  | noExchangeRate
  | conversionFailed (e : ConvError)
  | insufficientFunds
  | txNotFound
deriving DecidableEq, Repr

/-- The pattern shared by all three routes:
`tx.currency === account.currency ? tx.amount : convertCurrency(...)`. -/
def toAccountCurrency (amount : ℤ) (txCurrency accountCurrency : String) (date : ℤ) :
    Except ConvError ℤ :=
  if txCurrency = accountCurrency then .ok amount
  else do
    let r ← convertCurrency (amount : ℚ) txCurrency accountCurrency date
    pure r.amountInMinorUnits

/-- Sign of a transaction type's balance effect: `+1` for income, `-1` for
expense, `0` otherwise (no branch touches the balance for other types). -/
def signOf (t : String) : ℤ :=
  if t = "income" then 1 else if t = "expense" then -1 else 0

/-- The signed, currency-converted balance effect of one stored transaction
on its account (0 if the conversion would fail, which never happens for a
transaction the routes accepted). -/
def txEffect (accountCurrency : String) (t : Tx) : ℤ :=
  signOf t.type *
    ((toAccountCurrency t.amountInMinorUnits t.currency accountCurrency t.date).toOption.getD 0)

/-- Net balance effect of a transaction collection. -/
def txEffectSum (accountCurrency : String) (txs : List Tx) : ℤ :=
  (txs.map (txEffect accountCurrency)).sum

/-- The body of a transaction POST request. -/
structure CreateParams where
  type : String
  category : String
  amount : ℚ
  currency : Option String
  date : ℤ
deriving DecidableEq, Repr

/-- `POST /api/transactions`: the `validateTransaction` middleware, the
inactive-account check, minor-unit rounding, the captured USD rate and USD
conversion, the cross-currency balance delta, the signed balance mutation
with the insufficient-funds check, and the paired saves. -/
def createTransaction (s : LedgerState) (p : CreateParams) (newId : ℕ) :
    Except TxError LedgerState :=
  if ¬ (p.type = "income" ∨ p.type = "expense" ∨ p.type = "transfer") then
    .error .validationFailed
  else if p.category = "" then .error .validationFailed
  else if p.amount ≤ 0 then .error .validationFailed
  else if ¬ (p.currency.all supported.contains) then .error .validationFailed
  else if ¬ s.account.isActive then .error .accountInactive
  else
    let amountInMinorUnits := jsRound (p.amount * 100)
    let txCurrency := p.currency.getD s.account.currency
    if ¬ truthyRate (getExchangeRateToUSD txCurrency p.date) then .error .noExchangeRate
    else
      match convertCurrency (amountInMinorUnits : ℚ) txCurrency "USD" p.date with
      | .error e => .error (.conversionFailed e)
      | .ok _usdConversion =>
        match toAccountCurrency amountInMinorUnits txCurrency s.account.currency p.date with
        | .error e => .error (.conversionFailed e)
        | .ok accountBalanceDelta =>
          let newBalance :=
            if p.type = "income" then s.account.balanceInMinorUnits + accountBalanceDelta
            else if p.type = "expense" then s.account.balanceInMinorUnits - accountBalanceDelta
            else s.account.balanceInMinorUnits
          if p.type = "expense" ∧ newBalance < 0 ∧ s.account.type ≠ "credit" then
            .error .insufficientFunds
          else
            .ok { account := { s.account with balanceInMinorUnits := newBalance }
                  txs := ⟨newId, p.type, amountInMinorUnits, txCurrency, p.date⟩ :: s.txs }

/-- The body of a transaction PUT request (the fields that affect balances;
`category` and `description` are not tracked).  The PUT route has no
validation middleware: `amount` is applied whenever present
(`!== undefined`); `type`, `currency` and `date` only when truthy. -/
structure UpdateParams where
  amount : Option ℚ
  type : Option String
  date : Option ℤ
  currency : Option String
deriving DecidableEq, Repr

/-- Apply a PUT body to a stored transaction, field by field in source
order. -/
def applyTxUpdates (t : Tx) (u : UpdateParams) : Tx :=
  let t1 :=
    match u.amount with
    | some a => { t with amountInMinorUnits := jsRound (a * 100) }
    | none => t
  let t2 :=
    match u.type with
    | some ty => if ty = "" then t1 else { t1 with type := ty }
    | none => t1
  let t3 :=
    match u.date with
    | some d => { t2 with date := d }
    | none => t2
  match u.currency with
  | some c => if c = "" then t3 else { t3 with currency := c }
  | none => t3

/-- `Transaction.findOne({_id: id, ...})`. -/
def findTx : List Tx → ℕ → Option Tx
  | [], _ => none
  | t :: ts, i => if t.id = i then some t else findTx ts i

/-- Saving an updated transaction document back into the collection. -/
def replaceTx : List Tx → ℕ → Tx → List Tx
  | [], _, _ => []
  | t :: ts, i, t' => if t.id = i then t' :: ts else t :: replaceTx ts i t'

/-- `transaction.deleteOne()`. -/
def removeTx : List Tx → ℕ → List Tx
  | [], _ => []
  | t :: ts, i => if t.id = i then ts else t :: removeTx ts i

/-- `PUT /api/transactions/:id`: reverse the stored transaction's balance
effect (converted via its original currency at its date), apply the body's
updates, recompute the USD equivalent (throwing on an unknown currency),
apply the new effect, and save both documents.  There is no inactive-account
or insufficient-funds check. -/
def updateTransaction (s : LedgerState) (id : ℕ) (u : UpdateParams) :
    Except TxError LedgerState :=
  match findTx s.txs id with
  | none => .error .txNotFound
  | some t =>
    match toAccountCurrency t.amountInMinorUnits t.currency s.account.currency t.date with
    | .error e => .error (.conversionFailed e)
    | .ok oldAmountInAccountCurrency =>
      let bal1 :=
        if t.type = "income" then s.account.balanceInMinorUnits - oldAmountInAccountCurrency
        else if t.type = "expense" then s.account.balanceInMinorUnits + oldAmountInAccountCurrency
        else s.account.balanceInMinorUnits
      let t' := applyTxUpdates t u
      match convertCurrency (t'.amountInMinorUnits : ℚ) t'.currency "USD" t'.date with
      | .error e => .error (.conversionFailed e)
      | .ok _usdConversion =>
        match toAccountCurrency t'.amountInMinorUnits t'.currency s.account.currency t'.date with
        | .error e => .error (.conversionFailed e)
        | .ok newAmountInAccountCurrency =>
          let bal2 :=
            if t'.type = "income" then bal1 + newAmountInAccountCurrency
            else if t'.type = "expense" then bal1 - newAmountInAccountCurrency
            else bal1
          .ok { account := { s.account with balanceInMinorUnits := bal2 }
                txs := replaceTx s.txs id t' }

/-- `DELETE /api/transactions/:id`: reverse the stored transaction's balance
effect and remove the record, atomically. -/
def deleteTransaction (s : LedgerState) (id : ℕ) : Except TxError LedgerState :=
  match findTx s.txs id with
  | none => .error .txNotFound
  | some t =>
    match toAccountCurrency t.amountInMinorUnits t.currency s.account.currency t.date with
    | .error e => .error (.conversionFailed e)
    | .ok amountInAccountCurrency =>
      let newBalance :=
        if t.type = "income" then s.account.balanceInMinorUnits - amountInAccountCurrency
        else if t.type = "expense" then s.account.balanceInMinorUnits + amountInAccountCurrency
        else s.account.balanceInMinorUnits
      .ok { account := { s.account with balanceInMinorUnits := newBalance }
            txs := removeTx s.txs id }

/-- One transaction-route request. -/
inductive TxOp
  | create (p : CreateParams) (newId : ℕ)
  | update (id : ℕ) (u : UpdateParams)
  | delete (id : ℕ)

/-- Run one route body. -/
def applyTxOp (s : LedgerState) : TxOp → Except TxError LedgerState
  | .create p newId => createTransaction s p newId
  | .update id u => updateTransaction s id u
  | .delete id => deleteTransaction s id

/-- `session.withTransaction`: a thrown error aborts the multi-document
transaction, leaving the stored state unchanged. -/
def stepTxOp (s : LedgerState) (op : TxOp) : LedgerState :=
  match applyTxOp s op with
  | .ok s' => s'
  | .error _ => s

/-- The operation concerns only `transfer`-typed transaction data: a create
whose type is `transfer`, an update of a stored `transfer` transaction that
leaves the type `transfer`, or a delete of a stored `transfer`
transaction. -/
def isTransferOnlyOp (s : LedgerState) : TxOp → Prop
  | .create p _ => p.type = "transfer"
  | .update id u => ∀ t, findTx s.txs id = some t →
      t.type = "transfer" ∧ (applyTxUpdates t u).type = "transfer"
  | .delete id => ∀ t, findTx s.txs id = some t → t.type = "transfer"

/-! ## Rate-table lemmas -/

lemma getRatesForDate_eq_cases (d : ℤ) :
    getRatesForDate d = currentRates ∨ getRatesForDate d = hist2Rates := by
  unfold getRatesForDate historical
  simp only [List.foldl]
  split_ifs <;> first | (left; rfl) | (right; rfl)

lemma getRatesForDate_closest (d : ℤ) :
    ∃ e ∈ rateEntries, getRatesForDate d = e.2 ∧
      ∀ e' ∈ rateEntries, |d - e.1| ≤ |d - e'.1| := by
  have hmem : ∀ e' : ℤ × RateTable, e' ∈ rateEntries ↔
      e' = (currentLastUpdated, currentRates) ∨ e' = (hist1Date, hist1Rates) ∨
        e' = (hist2Date, hist2Rates) := by
    intro e'; simp [rateEntries, historical]
  unfold getRatesForDate historical
  simp only [List.foldl]
  split_ifs with h1 h2 h3
  · exact ⟨(hist2Date, hist2Rates), (hmem _).mpr (Or.inr (Or.inr rfl)), rfl, by
      intro e' he'; rcases (hmem e').mp he' with rfl | rfl | rfl <;> simp <;> linarith⟩
  · exact ⟨(hist1Date, hist1Rates), (hmem _).mpr (Or.inr (Or.inl rfl)), rfl, by
      intro e' he'; rcases (hmem e').mp he' with rfl | rfl | rfl <;> simp <;> linarith⟩
  · exact ⟨(hist2Date, hist2Rates), (hmem _).mpr (Or.inr (Or.inr rfl)), rfl, by
      intro e' he'; rcases (hmem e').mp he' with rfl | rfl | rfl <;> simp <;> linarith⟩
  · exact ⟨(currentLastUpdated, currentRates), (hmem _).mpr (Or.inl rfl), rfl, by
      intro e' he'; rcases (hmem e').mp he' with rfl | rfl | rfl <;> simp <;> linarith⟩

lemma supported_rate_bounds (c : String) (hc : c ∈ supported) (d : ℤ) :
    ∃ r, rateLookup (getRatesForDate d) c = some r ∧ 91/100 ≤ r ∧ r ≤ 17015/10000 := by
  rcases getRatesForDate_eq_cases d with h | h <;> rw [h] <;>
      (simp only [supported, List.mem_cons, List.not_mem_nil, or_false] at hc;
       rcases hc with rfl | rfl | rfl) <;>
    exact ⟨_, rfl, by norm_num, by norm_num⟩

lemma supported_ne_empty {c : String} (hc : c ∈ supported) : c ≠ "" := by
  simp only [supported, List.mem_cons, List.not_mem_nil, or_false] at hc
  rcases hc with rfl | rfl | rfl <;> decide

lemma convertCurrency_int_ok (a : ℤ) (f t : String) (d : ℤ)
    (hf : f ≠ "") (ht : t ≠ "") (hft : f ≠ t) (rf rt : ℚ)
    (hrf : rateLookup (getRatesForDate d) f = some rf)
    (hrt : rateLookup (getRatesForDate d) t = some rt)
    (hrf0 : rf ≠ 0) (hrt0 : rt ≠ 0) :
    convertCurrency (a : ℚ) f t d =
      .ok ⟨jsRound ((a : ℚ) / rf * rt), rt / rf, some rf⟩ := by
  unfold convertCurrency
  rw [if_neg (by simp), if_neg (by simp [hf, ht]), if_neg hft]
  simp only [hrf, hrt]
  rw [if_neg (by simp [hrf0, hrt0])]

/-- Rounding analysis of one conversion and back: as long as the two rates
are within a factor of 3 of each other, `Math.round`-ing at each step moves
the result by at most one minor unit. -/
lemma jsRound_round_trip (a : ℤ) (rf rt : ℚ) (hf : 0 < rf) (ht : 0 < rt)
    (hlt : rf < 3 * rt) :
    |jsRound ((jsRound ((a : ℚ) / rf * rt) : ℤ) / rt * rf) - a| ≤ 1 := by
  have hfne : rf ≠ 0 := ne_of_gt hf
  have htne : rt ≠ 0 := ne_of_gt ht
  have hy1 : ((jsRound ((a : ℚ) / rf * rt) : ℤ) : ℚ) ≤ (a : ℚ) / rf * rt + 1/2 := by
    unfold jsRound; exact Int.floor_le _
  have hy2 : (a : ℚ) / rf * rt + 1/2 < ((jsRound ((a : ℚ) / rf * rt) : ℤ) : ℚ) + 1 := by
    unfold jsRound; exact Int.lt_floor_add_one _
  have hr1 : ((jsRound ((jsRound ((a : ℚ) / rf * rt) : ℤ) / rt * rf) : ℤ) : ℚ) ≤
      ((jsRound ((a : ℚ) / rf * rt) : ℤ) : ℚ) / rt * rf + 1/2 := by
    unfold jsRound; exact Int.floor_le _
  have hr2 : ((jsRound ((a : ℚ) / rf * rt) : ℤ) : ℚ) / rt * rf + 1/2 <
      ((jsRound ((jsRound ((a : ℚ) / rf * rt) : ℤ) / rt * rf) : ℤ) : ℚ) + 1 := by
    unfold jsRound; exact Int.lt_floor_add_one _
  set y : ℤ := jsRound ((a : ℚ) / rf * rt)
  set r : ℤ := jsRound ((y : ℚ) / rt * rf)
  have e1 : ((a : ℚ) / rf * rt + 1/2) * rf = (a : ℚ) * rt + rf / 2 := by
    field_simp; ring
  have e2 : ((y : ℚ) / rt * rf + 1/2) * rt = (y : ℚ) * rf + rt / 2 := by
    field_simp; ring
  have h1 : (y : ℚ) * rf ≤ (a : ℚ) * rt + rf / 2 :=
    e1 ▸ mul_le_mul_of_nonneg_right hy1 hf.le
  have h2 : (a : ℚ) * rt + rf / 2 < ((y : ℚ) + 1) * rf :=
    e1 ▸ mul_lt_mul_of_pos_right hy2 hf
  have h3 : (r : ℚ) * rt ≤ (y : ℚ) * rf + rt / 2 :=
    e2 ▸ mul_le_mul_of_nonneg_right hr1 ht.le
  have h4 : (y : ℚ) * rf + rt / 2 < ((r : ℚ) + 1) * rt :=
    e2 ▸ mul_lt_mul_of_pos_right hr2 ht
  have hub : (r : ℚ) < (a : ℚ) + 2 := by
    have : (r : ℚ) * rt < ((a : ℚ) + 2) * rt := by nlinarith
    exact lt_of_mul_lt_mul_right this ht.le
  have hlb : (a : ℚ) - 2 < (r : ℚ) := by
    have : ((a : ℚ) - 2) * rt < (r : ℚ) * rt := by nlinarith
    exact lt_of_mul_lt_mul_right this ht.le
  have hub' : r < a + 2 := by exact_mod_cast hub
  have hlb' : a - 2 < r := by exact_mod_cast hlb
  rw [abs_le]
  omega

/-- **C3.** For every pair of distinct supported currencies `A` and `B`,
every integer minor-unit amount, and every effective date, converting
`A → B` and then the result `B → A` with the same effective date via
`convertCurrency` returns an amount within 1 minor unit of the original. -/
theorem convert_round_trip_within_one (a : ℤ) (A B : String) (d : ℤ)
    (hA : A ∈ supported) (hB : B ∈ supported) (hAB : A ≠ B)
    (r1 r2 : ConvResult)
    (h1 : convertCurrency (a : ℚ) A B d = .ok r1)
    (h2 : convertCurrency (r1.amountInMinorUnits : ℚ) B A d = .ok r2) :
    |r2.amountInMinorUnits - a| ≤ 1 := by
  obtain ⟨rA, hrA, hA1, hA2⟩ := supported_rate_bounds A hA d
  obtain ⟨rB, hrB, hB1, hB2⟩ := supported_rate_bounds B hB d
  have hA0 : (0 : ℚ) < rA := by linarith
  have hB0 : (0 : ℚ) < rB := by linarith
  rw [convertCurrency_int_ok a A B d (supported_ne_empty hA) (supported_ne_empty hB) hAB
      rA rB hrA hrB (ne_of_gt hA0) (ne_of_gt hB0)] at h1
  injection h1 with h1
  subst h1
  rw [convertCurrency_int_ok _ B A d (supported_ne_empty hB) (supported_ne_empty hA) hAB.symm
      rB rA hrB hrA (ne_of_gt hB0) (ne_of_gt hA0)] at h2
  injection h2 with h2
  subst h2
  exact jsRound_round_trip a rA rB hA0 hB0 (by linarith)

/-- Witness for C3 at a concrete input: 10000 EUR-cents to USD and back at
epoch date 0 (resolving the 2025-07-01 table) returns exactly 10000. -/
theorem convert_round_trip_within_one_witness :
    ("EUR" : String) ∈ supported ∧ ("USD" : String) ∈ supported ∧
    ("EUR" : String) ≠ "USD" ∧
    convertCurrency ((10000 : ℤ) : ℚ) "EUR" "USD" 0 =
      .ok ⟨10989, 100/91, some (91/100)⟩ ∧
    convertCurrency (((10989 : ℤ) : ℚ)) "USD" "EUR" 0 =
      .ok ⟨10000, 91/100, some 1⟩ ∧
    |ConvResult.amountInMinorUnits ⟨10000, 91/100, some 1⟩ - (10000 : ℤ)| ≤ 1 := by
  have e1 : convertCurrency ((10000 : ℤ) : ℚ) "EUR" "USD" 0 =
      .ok ⟨10989, 100/91, some (91/100)⟩ := by
    rw [convertCurrency_int_ok 10000 "EUR" "USD" 0 (by decide) (by decide) (by decide)
      (91/100) 1 rfl rfl (by norm_num) (by norm_num)]
    simp only [jsRound, Except.ok.injEq, ConvResult.mk.injEq]
    norm_num
  have e2 : convertCurrency ((10989 : ℤ) : ℚ) "USD" "EUR" 0 =
      .ok ⟨10000, 91/100, some 1⟩ := by
    rw [convertCurrency_int_ok 10989 "USD" "EUR" 0 (by decide) (by decide) (by decide)
      1 (91/100) rfl rfl (by norm_num) (by norm_num)]
    simp only [jsRound, Except.ok.injEq, ConvResult.mk.injEq]
    norm_num
  refine ⟨by decide, by decide, by decide, e1, e2, ?_⟩
  exact convert_round_trip_within_one 10000 "EUR" "USD" 0 (by decide) (by decide) (by decide)
    ⟨10989, 100/91, some (91/100)⟩ ⟨10000, 91/100, some 1⟩ e1 e2

/-- **C5.** `convertCurrency` on an integer minor-unit amount: when source
equals target it returns the amount unchanged with rate exactly 1;
otherwise it resolves the rate-table entry whose date is closest to the
effective date by absolute time difference (no interpolation) and, for the
rates found there, returns `Math.round(amount / rate[source] * rate[target])`
together with the effective rate `rate[target]/rate[source]` and the
source-to-USD rate `rate[source]`. -/
theorem convertCurrency_functional_spec (a : ℤ) (f t : String) (d : ℤ)
    (hf : f ≠ "") (ht : t ≠ "") :
    (f = t → convertCurrency (a : ℚ) f t d = .ok ⟨a, 1, none⟩) ∧
    (f ≠ t → ∃ e ∈ rateEntries, getRatesForDate d = e.2 ∧
      (∀ e' ∈ rateEntries, |d - e.1| ≤ |d - e'.1|) ∧
      ∀ rf rt : ℚ, rateLookup e.2 f = some rf → rateLookup e.2 t = some rt →
        rf ≠ 0 → rt ≠ 0 →
        convertCurrency (a : ℚ) f t d =
          .ok ⟨jsRound ((a : ℚ) / rf * rt), rt / rf, some rf⟩) := by
  constructor
  · intro hft
    unfold convertCurrency
    rw [if_neg (by simp), if_neg (by simp [hf, ht]), if_pos hft]
    simp
  · intro hft
    obtain ⟨e, hmem, htab, hmin⟩ := getRatesForDate_closest d
    refine ⟨e, hmem, htab, hmin, ?_⟩
    intro rf rt hrf hrt hrf0 hrt0
    exact convertCurrency_int_ok a f t d hf ht hft rf rt (htab ▸ hrf) (htab ▸ hrt) hrf0 hrt0

/-- Witness for C5 at concrete inputs, exercising both the same-currency
branch and the cross-currency branch. -/
theorem convertCurrency_functional_spec_witness :
    (("USD" : String) ≠ "" ∧ ("USD" : String) = "USD" →
      convertCurrency ((250 : ℤ) : ℚ) "USD" "USD" 7 = .ok ⟨250, 1, none⟩) ∧
    (("EUR" : String) ≠ "" ∧ ("USD" : String) ≠ "" ∧ ("EUR" : String) ≠ "USD" →
      ∃ e ∈ rateEntries, getRatesForDate 7 = e.2 ∧
        (∀ e' ∈ rateEntries, |(7 : ℤ) - e.1| ≤ |(7 : ℤ) - e'.1|) ∧
        ∀ rf rt : ℚ, rateLookup e.2 "EUR" = some rf → rateLookup e.2 "USD" = some rt →
          rf ≠ 0 → rt ≠ 0 →
          convertCurrency ((250 : ℤ) : ℚ) "EUR" "USD" 7 =
            .ok ⟨jsRound ((250 : ℚ) / rf * rt), rt / rf, some rf⟩) := by
  constructor
  · intro h
    exact (convertCurrency_functional_spec 250 "USD" "USD" 7 h.1 h.1).1 h.2
  · intro h
    have := (convertCurrency_functional_spec 250 "EUR" "USD" 7 h.1 h.2.1).2 h.2.2
    simpa using this

/-- **C9 counterexample.** The claim says `convertCurrency` fails with a
missing-rate error whenever either currency code is absent from the resolved
rate table; but when source and target are the *same* absent code ("GBP" is
in no rate table) the same-currency short-circuit returns success. -/
theorem convert_missing_currency_succeeds_cex :
    rateLookup (getRatesForDate 0) "GBP" = none ∧
    convertCurrency (100 : ℚ) "GBP" "GBP" 0 = .ok ⟨100, 1, none⟩ := by
  exact ⟨rfl, rfl⟩

/-- **C9 (amended).** `convertCurrency` fails with the invalid-input error
whenever the amount is not an integer; for integer amounts it fails with a
required-arguments error when either code is the empty string; otherwise,
when source equals target it succeeds without consulting the rate table at
all (even for codes absent from it), and when source differs from target it
fails with the missing-rate error exactly when either code's entry in the
resolved rate table is absent (or zero), succeeding in all other cases. -/
theorem convertCurrency_error_conditions (q : ℚ) (f t : String) (d : ℤ) :
    (q.den ≠ 1 → convertCurrency q f t d = .error .notInteger) ∧
    (q.den = 1 → (f = "" ∨ t = "") →
      convertCurrency q f t d = .error .missingCurrencyArg) ∧
    (q.den = 1 → f ≠ "" → t ≠ "" → f = t →
      convertCurrency q f t d = .ok ⟨q.num, 1, none⟩) ∧
    (q.den = 1 → f ≠ "" → t ≠ "" → f ≠ t →
      ((truthyRate (rateLookup (getRatesForDate d) f) = false ∨
        truthyRate (rateLookup (getRatesForDate d) t) = false) →
          convertCurrency q f t d = .error .rateNotAvailable) ∧
      (truthyRate (rateLookup (getRatesForDate d) f) = true →
       truthyRate (rateLookup (getRatesForDate d) t) = true →
          ∃ r, convertCurrency q f t d = .ok r)) := by
  refine ⟨?_, ?_, ?_, ?_⟩
  · intro hden
    unfold convertCurrency
    rw [if_pos hden]
  · intro hden hempty
    unfold convertCurrency
    rw [if_neg (by simp [hden]), if_pos hempty]
  · intro hden hf ht hft
    unfold convertCurrency
    rw [if_neg (by simp [hden]), if_neg (by simp [hf, ht]), if_pos hft]
  · intro hden hf ht hft
    constructor
    · intro hfalsy
      unfold convertCurrency
      rw [if_neg (by simp [hden]), if_neg (by simp [hf, ht]), if_neg hft]
      cases hlf : rateLookup (getRatesForDate d) f with
      | none => simp [hlf]
      | some rf =>
        cases hlt : rateLookup (getRatesForDate d) t with
        | none => simp [hlf, hlt]
        | some rt =>
          rw [hlf, hlt] at hfalsy
          rcases hfalsy with hfalsy | hfalsy <;>
            simp only [truthyRate, bne_eq_false_iff_eq] at hfalsy <;>
            simp [hlf, hlt, hfalsy]
    · intro htf htt
      cases hlf : rateLookup (getRatesForDate d) f with
      | none => rw [hlf] at htf; simp [truthyRate] at htf
      | some rf =>
        cases hlt : rateLookup (getRatesForDate d) t with
        | none => rw [hlt] at htt; simp [truthyRate] at htt
        | some rt =>
          rw [hlf] at htf
          rw [hlt] at htt
          simp only [truthyRate, bne_iff_ne, ne_eq] at htf htt
          refine ⟨⟨jsRound (q / rf * rt), rt / rf, some rf⟩, ?_⟩
          unfold convertCurrency
          rw [if_neg (by simp [hden]), if_neg (by simp [hf, ht]), if_neg hft]
          simp only [hlf, hlt]
          rw [if_neg (by simp [htf, htt])]

/-- Witness for C9 (amended), hitting each error branch and the success
branch at concrete inputs. -/
theorem convertCurrency_error_conditions_witness :
    convertCurrency (1/2 : ℚ) "USD" "EUR" 0 = .error .notInteger ∧
    convertCurrency (5 : ℚ) "" "EUR" 0 = .error .missingCurrencyArg ∧
    convertCurrency (5 : ℚ) "GBP" "GBP" 0 = .ok ⟨5, 1, none⟩ ∧
    convertCurrency (5 : ℚ) "GBP" "EUR" 0 = .error .rateNotAvailable ∧
    (∃ r, convertCurrency (5 : ℚ) "USD" "EUR" 0 = .ok r) := by
  refine ⟨?_, ?_, ?_, ?_, ?_⟩
  · exact (convertCurrency_error_conditions (1/2) "USD" "EUR" 0).1 (by norm_num)
  · exact (convertCurrency_error_conditions 5 "" "EUR" 0).2.1 (by decide) (Or.inl rfl)
  · exact (convertCurrency_error_conditions 5 "GBP" "GBP" 0).2.2.1 (by decide) (by decide)
      (by decide) rfl
  · exact ((convertCurrency_error_conditions 5 "GBP" "EUR" 0).2.2.2 (by decide) (by decide)
      (by decide) (by decide)).1 (Or.inl rfl)
  · refine ((convertCurrency_error_conditions 5 "USD" "EUR" 0).2.2.2 (by decide) (by decide)
      (by decide) (by decide)).2 rfl ?_
    rw [show rateLookup (getRatesForDate 0) "EUR" = some (91/100) from rfl]
    simp only [truthyRate, bne_iff_ne, ne_eq, decide_eq_true_eq]
    norm_num

/-! ## Borrowing status lemmas -/

lemma preSave_amount (x : Borrowing) (now : ℤ) :
    (preSave x now).amountInMinorUnits = x.amountInMinorUnits := by
  rcases x with ⟨a, p, due, st⟩
  unfold preSave
  rcases due with _ | d <;> dsimp <;> split_ifs <;> rfl

lemma preSave_paid (x : Borrowing) (now : ℤ) :
    (preSave x now).paidAmountInMinorUnits = x.paidAmountInMinorUnits := by
  rcases x with ⟨a, p, due, st⟩
  unfold preSave
  rcases due with _ | d <;> dsimp <;> split_ifs <;> rfl

lemma preSave_due (x : Borrowing) (now : ℤ) : (preSave x now).dueDate = x.dueDate := by
  rcases x with ⟨a, p, due, st⟩
  unfold preSave
  rcases due with _ | d <;> dsimp <;> split_ifs <;> rfl

/-- After any save, the hook has enforced the first three branches of the
spec's status function (the final `pending` branch has no counterpart in the
hook). -/
lemma preSave_branches (x : Borrowing) (now : ℤ) :
    ((preSave x now).paidAmountInMinorUnits ≥ (preSave x now).amountInMinorUnits →
      (preSave x now).status = .paid) ∧
    (0 < (preSave x now).paidAmountInMinorUnits ∧
      (preSave x now).paidAmountInMinorUnits < (preSave x now).amountInMinorUnits →
      (preSave x now).status = .partially_paid) ∧
    ((preSave x now).paidAmountInMinorUnits ≤ 0 ∧
      (preSave x now).paidAmountInMinorUnits < (preSave x now).amountInMinorUnits ∧
      dueElapsed (preSave x now).dueDate now = true →
      (preSave x now).status = .overdue) := by
  rw [preSave_amount, preSave_paid, preSave_due]
  rcases x with ⟨a, p, due, st⟩
  unfold preSave dueElapsed
  rcases due with _ | d <;> dsimp <;> split_ifs <;>
    refine ⟨?_, ?_, ?_⟩ <;> simp <;> omega

/-- Every accepted borrowing write ends in a save of the hook. -/
lemma applyBWrite_ok_shape (op : BWriteOp) (b : Borrowing) (now : ℤ) (b' : Borrowing)
    (h : applyBWrite op b now = .ok b') : ∃ x, b' = preSave x now := by
  cases op with
  | create amount dueDate =>
    have h' : createBorrowing amount dueDate now = .ok b' := h
    unfold createBorrowing at h'
    by_cases h0 : amount ≤ 0
    · rw [if_pos h0] at h'
      exact absurd h' (by simp)
    · rw [if_neg h0] at h'
      injection h' with h'
      exact ⟨_, h'.symm⟩
  | put u =>
    have h' : putBorrowing b u now = .ok b' := h
    unfold putBorrowing at h'
    rcases u with ⟨opa, odd, ost⟩
    rcases opa with _ | pa <;> dsimp only at h'
    · injection h' with h'
      exact ⟨_, by rw [← h']; rfl⟩
    · by_cases hneg : pa < 0
      · rw [if_pos hneg] at h'
        exact absurd h' (by simp)
      · rw [if_neg hneg] at h'
        rcases hpb : putPaidBlock b (jsRound (pa * 100)) with e | b1 <;> rw [hpb] at h'
        · exact absurd h' (by simp)
        · injection h' with h'
          exact ⟨_, by rw [← h']; rfl⟩
  | payment amount =>
    have h' : paymentBorrowing b amount now = .ok b' := h
    unfold paymentBorrowing at h'
    by_cases h1 : amount ≤ 0
    · rw [if_pos h1] at h'
      exact absurd h' (by simp)
    · rw [if_neg h1] at h'
      by_cases h2 : b.status = .paid
      · rw [if_pos h2] at h'
        exact absurd h' (by simp)
      · rw [if_neg h2] at h'
        dsimp only at h'
        by_cases h3 :
            b.paidAmountInMinorUnits + jsRound (amount * 100) > b.amountInMinorUnits
        · rw [if_pos h3] at h'
          exact absurd h' (by simp)
        · rw [if_neg h3] at h'
          injection h' with h'
          exact ⟨_, h'.symm⟩

/-- **C2 counterexample.** A pending borrowing whose due date elapses is
upgraded to `overdue` by a read; a later update that moves the due date into
the future leaves the status `overdue`, while the spec's pure status
function yields `pending` (the pre-save hook has no branch resetting the
status to `pending`). -/
theorem borrowing_status_not_spec_function_cex :
    createBorrowing 100 (some 5) 0 = .ok ⟨10000, 0, some 5, .pending⟩ ∧
    readBorrowing ⟨10000, 0, some 5, .pending⟩ 10 = ⟨10000, 0, some 5, .overdue⟩ ∧
    putBorrowing ⟨10000, 0, some 5, .overdue⟩ ⟨none, some (some 100), none⟩ 20 =
      .ok ⟨10000, 0, some 100, .overdue⟩ ∧
    specStatus 0 10000 (some 100) 20 = .pending ∧
    BStatus.overdue ≠ BStatus.pending := by
  refine ⟨?_, by decide, by decide, by decide, by decide⟩
  unfold createBorrowing preSave
  norm_num [jsRound]

/-- **C2 (amended).** After every accepted borrowing write the status agrees
with the spec's status function on its first three branches: it is `paid`
whenever paidAmount ≥ principal, `partially_paid` whenever
0 < paidAmount < principal, and `overdue` whenever paidAmount ≤ 0 <
principal − paidAmount and the due date has elapsed at write time.  In the
remaining case (no positive paid amount and no elapsed due date) the status
keeps its previous value instead of resetting to `pending`, and reads only
upgrade `pending` to `overdue`. -/
theorem borrowing_write_status_branches (op : BWriteOp) (b : Borrowing) (now : ℤ)
    (b' : Borrowing) (h : applyBWrite op b now = .ok b') :
    (b'.paidAmountInMinorUnits ≥ b'.amountInMinorUnits → b'.status = .paid) ∧
    (0 < b'.paidAmountInMinorUnits ∧ b'.paidAmountInMinorUnits < b'.amountInMinorUnits →
      b'.status = .partially_paid) ∧
    (b'.paidAmountInMinorUnits ≤ 0 ∧ b'.paidAmountInMinorUnits < b'.amountInMinorUnits ∧
      dueElapsed b'.dueDate now = true → b'.status = .overdue) := by
  obtain ⟨x, rfl⟩ := applyBWrite_ok_shape op b now b' h
  exact preSave_branches x now

/-- Witness for C2 (amended): a concrete accepted payment write. -/
theorem borrowing_write_status_branches_witness :
    applyBWrite (.payment 50) ⟨10000, 0, none, .pending⟩ 0 =
      .ok ⟨10000, 5000, none, .partially_paid⟩ ∧
    ((0 < (5000 : ℤ) ∧ (5000 : ℤ) < 10000) →
      Borrowing.status ⟨10000, 5000, none, .partially_paid⟩ = .partially_paid) := by
  have happ : applyBWrite (.payment 50) ⟨10000, 0, none, .pending⟩ 0 =
      .ok ⟨10000, 5000, none, .partially_paid⟩ := by
    show paymentBorrowing ⟨10000, 0, none, .pending⟩ 50 0 = _
    unfold paymentBorrowing preSave
    norm_num [jsRound]
    simp
  exact ⟨happ,
    (borrowing_write_status_branches (.payment 50) ⟨10000, 0, none, .pending⟩ 0
      ⟨10000, 5000, none, .partially_paid⟩ happ).2.1⟩

/-- **C7 counterexample.** A positive payment of 0.004 major units rounds to
a zero minor-unit increment; it is not rejected, the increment (0) is added,
but on a record with an elapsed due date the save hook then sets the status
to `overdue` — not `partially_paid` as the claim requires for a
non-rejected payment below the principal. -/
theorem payment_zero_increment_status_cex :
    paymentBorrowing ⟨10000, 0, some 5, .pending⟩ (1/250) 10 =
      .ok ⟨10000, 0, some 5, .overdue⟩ ∧
    BStatus.overdue ≠ BStatus.partially_paid := by
  refine ⟨?_, by decide⟩
  unfold paymentBorrowing preSave
  norm_num [jsRound]
  simp

/-- **C7 (amended).** For a positive payment amount: the payment is rejected
when the borrowing's status is already `paid`; it is rejected when the
rounded increment would push the paid amount above the principal; otherwise
the increment is added and the status becomes `paid` if the new paid amount
is at least the principal, `partially_paid` if it is positive, and —
because the save hook runs after the route's assignment — `overdue` when
the new paid amount is not positive and the due date has elapsed
(`partially_paid` when it has not). -/
theorem payment_route_spec (b : Borrowing) (amount : ℚ) (now : ℤ)
    (hpos : 0 < amount) :
    (b.status = .paid → paymentBorrowing b amount now = .error .alreadyPaid) ∧
    (b.status ≠ .paid →
      (b.paidAmountInMinorUnits + jsRound (amount * 100) > b.amountInMinorUnits →
        paymentBorrowing b amount now = .error .exceedsBorrowed) ∧
      (b.paidAmountInMinorUnits + jsRound (amount * 100) ≤ b.amountInMinorUnits →
        paymentBorrowing b amount now = .ok
          { b with
            paidAmountInMinorUnits := b.paidAmountInMinorUnits + jsRound (amount * 100)
            status :=
              if b.paidAmountInMinorUnits + jsRound (amount * 100) ≥ b.amountInMinorUnits then
                .paid
              else if 0 < b.paidAmountInMinorUnits + jsRound (amount * 100) then
                .partially_paid
              else if dueElapsed b.dueDate now then .overdue
              else .partially_paid })) := by
  have hnle : ¬ amount ≤ 0 := not_le.mpr hpos
  constructor
  · intro hpaid
    unfold paymentBorrowing
    rw [if_neg hnle, if_pos hpaid]
  · intro hnotpaid
    constructor
    · intro hexceeds
      unfold paymentBorrowing
      rw [if_neg hnle, if_neg hnotpaid]
      dsimp only
      rw [if_pos hexceeds]
    · intro hle
      unfold paymentBorrowing
      rw [if_neg hnle, if_neg hnotpaid]
      dsimp only
      rw [if_neg (not_lt.mpr hle)]
      unfold preSave
      rcases b with ⟨amt, paid, due, st⟩
      dsimp only
      by_cases h1 : paid + jsRound (amount * 100) ≥ amt
      · rw [if_pos h1, if_pos h1]
      · rw [if_neg h1, if_neg h1]
        by_cases h2 : 0 < paid + jsRound (amount * 100)
        · simp only [if_pos h2]
          simp [show ¬ amt ≤ paid + jsRound (amount * 100) from h1, h2]
        · simp only [if_neg h2]
          rcases due with _ | d
          · simp [dueElapsed, show ¬ amt ≤ paid + jsRound (amount * 100) from h1, h2]
          · by_cases h3 : d < now
            · simp [dueElapsed, show ¬ amt ≤ paid + jsRound (amount * 100) from h1, h2, h3]
            · simp [dueElapsed, show ¬ amt ≤ paid + jsRound (amount * 100) from h1, h2, h3]

/-- Witness for C7 (amended): a concrete accepted payment. -/
theorem payment_route_spec_witness :
    (0 : ℚ) < 120 ∧
    (Borrowing.status ⟨20000, 0, none, .pending⟩ ≠ .paid) ∧
    (0 : ℤ) + jsRound ((120 : ℚ) * 100) ≤ 20000 ∧
    paymentBorrowing ⟨20000, 0, none, .pending⟩ 120 3 =
      .ok { (⟨20000, 0, none, .pending⟩ : Borrowing) with
        paidAmountInMinorUnits := (0 : ℤ) + jsRound ((120 : ℚ) * 100)
        status :=
          if (0 : ℤ) + jsRound ((120 : ℚ) * 100) ≥ 20000 then .paid
          else if 0 < (0 : ℤ) + jsRound ((120 : ℚ) * 100) then .partially_paid
          else if dueElapsed none 3 then .overdue
          else .partially_paid } := by
  have h1 : (0 : ℚ) < 120 := by norm_num
  have h2 : Borrowing.status ⟨20000, 0, none, .pending⟩ ≠ .paid := by decide
  have h3 : (0 : ℤ) + jsRound ((120 : ℚ) * 100) ≤ 20000 := by norm_num [jsRound]
  exact ⟨h1, h2, h3,
    ((payment_route_spec ⟨20000, 0, none, .pending⟩ 120 3 h1).2 h2).2 h3⟩

lemma putTail_amount (b1 : Borrowing) (u : BUpdate) (now : ℤ) :
    (putTail b1 u now).amountInMinorUnits = b1.amountInMinorUnits := by
  unfold putTail
  rw [preSave_amount]
  rcases u with ⟨opa, odd, ost⟩
  rcases odd with _ | dd <;> rcases ost with _ | st <;> dsimp only <;> split_ifs <;> rfl

lemma putTail_paid (b1 : Borrowing) (u : BUpdate) (now : ℤ) :
    (putTail b1 u now).paidAmountInMinorUnits = b1.paidAmountInMinorUnits := by
  unfold putTail
  rw [preSave_paid]
  rcases u with ⟨opa, odd, ost⟩
  rcases odd with _ | dd <;> rcases ost with _ | st <;> dsimp only <;> split_ifs <;> rfl

/-- **C8.** For every borrowing record reachable through the API — created
by the POST route and then transformed by any sequence of PUT updates,
payments, and reads — the paid amount never exceeds the principal. -/
theorem paid_never_exceeds_principal (b : Borrowing) (h : BReachable b) :
    b.paidAmountInMinorUnits ≤ b.amountInMinorUnits := by
  induction h with
  | create amount dueDate now b hok =>
    unfold createBorrowing at hok
    by_cases h0 : amount ≤ 0
    · rw [if_pos h0] at hok
      exact absurd hok (by simp)
    · rw [if_neg h0] at hok
      injection hok with hok
      subst hok
      rw [preSave_paid, preSave_amount]
      exact Int.floor_nonneg.mpr (by nlinarith [lt_of_not_le h0])
  | put b b' u now _ hok ih =>
    unfold putBorrowing at hok
    rcases u with ⟨opa, odd, ost⟩
    rcases opa with _ | pa <;> dsimp only at hok
    · injection hok with hok
      rw [← hok, putTail_paid, putTail_amount]
      exact ih
    · by_cases hneg : pa < 0
      · rw [if_pos hneg] at hok
        exact absurd hok (by simp)
      · rw [if_neg hneg] at hok
        rcases hpb : putPaidBlock b (jsRound (pa * 100)) with e | b1 <;> rw [hpb] at hok
        · exact absurd hok (by simp)
        · injection hok with hok
          rw [← hok, putTail_paid, putTail_amount]
          unfold putPaidBlock at hpb
          by_cases hpm : jsRound (pa * 100) > b.amountInMinorUnits
          · rw [if_pos hpm] at hpb
            exact absurd hpb (by simp)
          · rw [if_neg hpm] at hpb
            injection hpb with hpb
            rw [← hpb]
            exact not_lt.mp hpm
  | payment b b' amount now _ hok ih =>
    unfold paymentBorrowing at hok
    by_cases h1 : amount ≤ 0
    · rw [if_pos h1] at hok
      exact absurd hok (by simp)
    · rw [if_neg h1] at hok
      by_cases h2 : b.status = .paid
      · rw [if_pos h2] at hok
        exact absurd hok (by simp)
      · rw [if_neg h2] at hok
        dsimp only at hok
        by_cases h3 :
            b.paidAmountInMinorUnits + jsRound (amount * 100) > b.amountInMinorUnits
        · rw [if_pos h3] at hok
          exact absurd hok (by simp)
        · rw [if_neg h3] at hok
          injection hok with hok
          rw [← hok, preSave_paid, preSave_amount]
          exact not_lt.mp h3
  | read b now _ ih =>
    unfold readBorrowing
    split_ifs with hcond
    · rw [preSave_paid, preSave_amount]
      exact ih
    · exact ih

/-- Witness for C8: a freshly created borrowing is reachable and satisfies
the invariant. -/
theorem paid_never_exceeds_principal_witness :
    BReachable ⟨10000, 0, some 5, .pending⟩ ∧
    Borrowing.paidAmountInMinorUnits ⟨10000, 0, some 5, .pending⟩ ≤
      Borrowing.amountInMinorUnits ⟨10000, 0, some 5, .pending⟩ := by
  have hcreate : createBorrowing 100 (some 5) 0 = .ok ⟨10000, 0, some 5, .pending⟩ := by
    unfold createBorrowing preSave
    norm_num [jsRound]
  have hreach : BReachable ⟨10000, 0, some 5, .pending⟩ :=
    .create 100 (some 5) 0 _ hcreate
  exact ⟨hreach, paid_never_exceeds_principal _ hreach⟩

/-! ## Ledger lemmas -/

lemma convertCurrency_same_ok (a : ℤ) (f : String) (d : ℤ) (hf : f ≠ "") :
    convertCurrency (a : ℚ) f f d = .ok ⟨a, 1, none⟩ := by
  unfold convertCurrency
  rw [if_neg (by simp), if_neg (by simp [hf]), if_pos rfl]
  simp

lemma convertCurrency_supported_ok (a : ℤ) (f t : String) (hf : f ∈ supported)
    (ht : t ∈ supported) (d : ℤ) :
    ∃ r, convertCurrency (a : ℚ) f t d = .ok r := by
  by_cases hft : f = t
  · subst hft
    exact ⟨_, convertCurrency_same_ok a f d (supported_ne_empty hf)⟩
  · obtain ⟨rf, hrf, h1, _⟩ := supported_rate_bounds f hf d
    obtain ⟨rt, hrt, h2, _⟩ := supported_rate_bounds t ht d
    exact ⟨_, convertCurrency_int_ok a f t d (supported_ne_empty hf) (supported_ne_empty ht)
      hft rf rt hrf hrt (by linarith) (by linarith)⟩

lemma toAccountCurrency_supported_ok (a : ℤ) (c ac : String) (hc : c ∈ supported)
    (hac : ac ∈ supported) (d : ℤ) :
    ∃ v, toAccountCurrency a c ac d = .ok v := by
  unfold toAccountCurrency
  by_cases hcc : c = ac
  · exact ⟨a, by rw [if_pos hcc]⟩
  · rw [if_neg hcc]
    obtain ⟨r, hr⟩ := convertCurrency_supported_ok a c ac hc hac d
    exact ⟨r.amountInMinorUnits, by rw [hr]; rfl⟩

lemma truthyRate_supported (c : String) (hc : c ∈ supported) (d : ℤ) :
    truthyRate (getExchangeRateToUSD c d) = true := by
  obtain ⟨r, hr, h1, _⟩ := supported_rate_bounds c hc d
  unfold getExchangeRateToUSD
  rw [hr]
  simp only [truthyRate, bne_iff_ne, ne_eq]
  intro h0
  rw [h0] at h1
  norm_num at h1

lemma txEffect_eq (ac : String) (t : Tx) (amt : ℤ)
    (h : toAccountCurrency t.amountInMinorUnits t.currency ac t.date = .ok amt) :
    txEffect ac t = signOf t.type * amt := by
  unfold txEffect
  rw [h]
  rfl

lemma apply_if_sign (ty : String) (bal amt : ℤ) :
    (if ty = "income" then bal + amt else if ty = "expense" then bal - amt else bal) =
      bal + signOf ty * amt := by
  unfold signOf
  split_ifs <;> ring

lemma reverse_if_sign (ty : String) (bal amt : ℤ) :
    (if ty = "income" then bal - amt else if ty = "expense" then bal + amt else bal) =
      bal - signOf ty * amt := by
  unfold signOf
  split_ifs <;> ring

lemma txEffectSum_cons (ac : String) (t : Tx) (ts : List Tx) :
    txEffectSum ac (t :: ts) = txEffect ac t + txEffectSum ac ts := by
  simp [txEffectSum]

lemma txEffectSum_replaceTx (ac : String) (ts : List Tx) (i : ℕ) (t t' : Tx)
    (hfind : findTx ts i = some t) :
    txEffectSum ac (replaceTx ts i t') =
      txEffectSum ac ts - txEffect ac t + txEffect ac t' := by
  induction ts with
  | nil => simp [findTx] at hfind
  | cons hd tl ih =>
    unfold findTx at hfind
    unfold replaceTx
    by_cases hid : hd.id = i
    · rw [if_pos hid] at hfind ⊢
      injection hfind with hfind
      subst hfind
      rw [txEffectSum_cons, txEffectSum_cons]
      ring
    · rw [if_neg hid] at hfind ⊢
      rw [txEffectSum_cons, txEffectSum_cons, ih hfind]
      ring

lemma txEffectSum_removeTx (ac : String) (ts : List Tx) (i : ℕ) (t : Tx)
    (hfind : findTx ts i = some t) :
    txEffectSum ac (removeTx ts i) = txEffectSum ac ts - txEffect ac t := by
  induction ts with
  | nil => simp [findTx] at hfind
  | cons hd tl ih =>
    unfold findTx at hfind
    unfold removeTx
    by_cases hid : hd.id = i
    · rw [if_pos hid] at hfind ⊢
      injection hfind with hfind
      subst hfind
      rw [txEffectSum_cons]
      ring
    · rw [if_neg hid] at hfind ⊢
      rw [txEffectSum_cons, txEffectSum_cons, ih hfind]
      ring

/-- Inversion of an accepted transaction create: the balance moved by the
signed account-currency delta and the record was stored. -/
lemma createTransaction_ok_inv (s : LedgerState) (p : CreateParams) (newId : ℕ)
    (s' : LedgerState) (h : createTransaction s p newId = .ok s') :
    ∃ delta,
      toAccountCurrency (jsRound (p.amount * 100)) (p.currency.getD s.account.currency)
        s.account.currency p.date = .ok delta ∧
      s'.account = { s.account with balanceInMinorUnits :=
        (s.account.balanceInMinorUnits + signOf p.type * delta) } ∧
      s'.txs = ⟨newId, p.type, jsRound (p.amount * 100), p.currency.getD s.account.currency,
        p.date⟩ :: s.txs := by
  unfold createTransaction at h
  by_cases c1 : ¬ (p.type = "income" ∨ p.type = "expense" ∨ p.type = "transfer")
  · rw [if_pos c1] at h
    exact absurd h (by simp)
  rw [if_neg c1] at h
  by_cases c2 : p.category = ""
  · rw [if_pos c2] at h
    exact absurd h (by simp)
  rw [if_neg c2] at h
  by_cases c3 : p.amount ≤ 0
  · rw [if_pos c3] at h
    exact absurd h (by simp)
  rw [if_neg c3] at h
  by_cases c4 : ¬ (p.currency.all supported.contains = true)
  · rw [if_pos c4] at h
    exact absurd h (by simp)
  rw [if_neg c4] at h
  by_cases c5 : ¬ (s.account.isActive = true)
  · rw [if_pos c5] at h
    exact absurd h (by simp)
  rw [if_neg c5] at h
  dsimp only at h
  by_cases c6 : ¬ (truthyRate
      (getExchangeRateToUSD (p.currency.getD s.account.currency) p.date) = true)
  · rw [if_pos c6] at h
    exact absurd h (by simp)
  rw [if_neg c6] at h
  rcases h7 : convertCurrency ((jsRound (p.amount * 100) : ℤ) : ℚ)
      (p.currency.getD s.account.currency) "USD" p.date with e | uc <;> rw [h7] at h
  · exact absurd h (by simp)
  dsimp only at h
  rcases h8 : toAccountCurrency (jsRound (p.amount * 100))
      (p.currency.getD s.account.currency) s.account.currency p.date with e | delta <;>
    rw [h8] at h
  · exact absurd h (by simp)
  dsimp only at h
  by_cases c9 : p.type = "expense" ∧
      (if p.type = "income" then s.account.balanceInMinorUnits + delta
       else if p.type = "expense" then s.account.balanceInMinorUnits - delta
       else s.account.balanceInMinorUnits) < 0 ∧ s.account.type ≠ "credit"
  · rw [if_pos c9] at h
    exact absurd h (by simp)
  rw [if_neg c9] at h
  injection h with h
  subst h
  refine ⟨delta, rfl, ?_, rfl⟩
  dsimp only
  rw [apply_if_sign]

/-- Inversion of an accepted transaction update: the old effect was
reversed, the new effect applied, and the record replaced. -/
lemma updateTransaction_ok_inv (s : LedgerState) (id : ℕ) (u : UpdateParams)
    (s' : LedgerState) (h : updateTransaction s id u = .ok s') :
    ∃ t oldAmt newAmt,
      findTx s.txs id = some t ∧
      toAccountCurrency t.amountInMinorUnits t.currency s.account.currency t.date =
        .ok oldAmt ∧
      toAccountCurrency (applyTxUpdates t u).amountInMinorUnits
        (applyTxUpdates t u).currency s.account.currency (applyTxUpdates t u).date =
        .ok newAmt ∧
      s'.account = { s.account with balanceInMinorUnits :=
        (s.account.balanceInMinorUnits - signOf t.type * oldAmt +
          signOf (applyTxUpdates t u).type * newAmt) } ∧
      s'.txs = replaceTx s.txs id (applyTxUpdates t u) := by
  unfold updateTransaction at h
  rcases h1 : findTx s.txs id with _ | t <;> rw [h1] at h
  · exact absurd h (by simp)
  dsimp only at h
  rcases h2 : toAccountCurrency t.amountInMinorUnits t.currency s.account.currency t.date
      with e | oldAmt <;> rw [h2] at h
  · exact absurd h (by simp)
  dsimp only at h
  rcases h3 : convertCurrency (((applyTxUpdates t u).amountInMinorUnits : ℤ) : ℚ)
      (applyTxUpdates t u).currency "USD" (applyTxUpdates t u).date with e | uc <;>
    rw [h3] at h
  · exact absurd h (by simp)
  dsimp only at h
  rcases h4 : toAccountCurrency (applyTxUpdates t u).amountInMinorUnits
      (applyTxUpdates t u).currency s.account.currency (applyTxUpdates t u).date
      with e | newAmt <;> rw [h4] at h
  · exact absurd h (by simp)
  dsimp only at h
  injection h with h
  subst h
  refine ⟨t, oldAmt, newAmt, rfl, h2, h4, ?_, rfl⟩
  dsimp only
  rw [reverse_if_sign, apply_if_sign]

/-- Inversion of an accepted transaction delete: the stored effect was
reversed and the record removed. -/
lemma deleteTransaction_ok_inv (s : LedgerState) (id : ℕ) (s' : LedgerState)
    (h : deleteTransaction s id = .ok s') :
    ∃ t amt,
      findTx s.txs id = some t ∧
      toAccountCurrency t.amountInMinorUnits t.currency s.account.currency t.date =
        .ok amt ∧
      s'.account = { s.account with balanceInMinorUnits :=
        (s.account.balanceInMinorUnits - signOf t.type * amt) } ∧
      s'.txs = removeTx s.txs id := by
  unfold deleteTransaction at h
  rcases h1 : findTx s.txs id with _ | t <;> rw [h1] at h
  · exact absurd h (by simp)
  dsimp only at h
  rcases h2 : toAccountCurrency t.amountInMinorUnits t.currency s.account.currency t.date
      with e | amt <;> rw [h2] at h
  · exact absurd h (by simp)
  dsimp only at h
  injection h with h
  subst h
  refine ⟨t, amt, rfl, h2, ?_, rfl⟩
  dsimp only
  rw [reverse_if_sign]

/-- One accepted transaction route call preserves `balance − Σ effects` (and
the account's currency). -/
lemma applyTxOp_ok_invariant (s : LedgerState) (op : TxOp) (s' : LedgerState)
    (h : applyTxOp s op = .ok s') :
    s'.account.currency = s.account.currency ∧
    s'.account.balanceInMinorUnits - txEffectSum s'.account.currency s'.txs =
      s.account.balanceInMinorUnits - txEffectSum s.account.currency s.txs := by
  cases op with
  | create p newId =>
    obtain ⟨delta, hdelta, hacct, htxs⟩ := createTransaction_ok_inv s p newId s' h
    refine ⟨by rw [hacct], ?_⟩
    rw [hacct, htxs]
    dsimp only
    rw [txEffectSum_cons, txEffect_eq _ _ delta hdelta]
    ring
  | update id u =>
    obtain ⟨t, oldAmt, newAmt, h1, h2, h4, hacct, htxs⟩ :=
      updateTransaction_ok_inv s id u s' h
    refine ⟨by rw [hacct], ?_⟩
    rw [hacct, htxs]
    dsimp only
    rw [txEffectSum_replaceTx _ _ _ t _ h1, txEffect_eq _ _ oldAmt h2,
      txEffect_eq _ _ newAmt h4]
    ring
  | delete id =>
    obtain ⟨t, amt, h1, h2, hacct, htxs⟩ := deleteTransaction_ok_inv s id s' h
    refine ⟨by rw [hacct], ?_⟩
    rw [hacct, htxs]
    dsimp only
    rw [txEffectSum_removeTx _ _ _ t h1, txEffect_eq _ _ amt h2]
    ring

/-- **C1.** Starting from a fresh account, after any sequence of
transaction create / update / delete requests (each wrapped in the
rollback-on-error multi-document transaction), the account's
`balanceInMinorUnits` equals the initial balance plus the sum of the
signed, currency-converted effects of all currently-extant transactions. -/
theorem balance_matches_transaction_sum (a : Account) (ops : List TxOp) :
    (ops.foldl stepTxOp ⟨a, []⟩).account.balanceInMinorUnits =
      a.balanceInMinorUnits +
        txEffectSum (ops.foldl stepTxOp ⟨a, []⟩).account.currency
          (ops.foldl stepTxOp ⟨a, []⟩).txs := by
  suffices h : ∀ s : LedgerState,
      (ops.foldl stepTxOp s).account.balanceInMinorUnits -
        txEffectSum (ops.foldl stepTxOp s).account.currency (ops.foldl stepTxOp s).txs =
      s.account.balanceInMinorUnits - txEffectSum s.account.currency s.txs by
    have h0 := h ⟨a, []⟩
    have hempty : txEffectSum (⟨a, []⟩ : LedgerState).account.currency
        (⟨a, []⟩ : LedgerState).txs = 0 := by simp [txEffectSum]
    dsimp only at h0 hempty
    omega
  induction ops with
  | nil =>
    intro s
    rfl
  | cons op ops ih =>
    intro s
    rw [List.foldl_cons, ih (stepTxOp s op)]
    unfold stepTxOp
    rcases hop : applyTxOp s op with e | s2
    · rfl
    · exact (applyTxOp_ok_invariant s op s2 hop).2

/-- **C4 counterexample.** Updating a stored income transaction into an
expense larger than the account balance succeeds and drives a non-credit
(`checking`) account's balance to −10000 minor units — create's
insufficient-funds rejection rule is not applied by the update route. -/
theorem update_skips_create_rejections_cex :
    updateTransaction ⟨⟨10000, "USD", "checking", true⟩, [⟨1, "income", 10000, "USD", 0⟩]⟩ 1
        ⟨none, some "expense", none, none⟩ =
      .ok ⟨⟨-10000, "USD", "checking", true⟩, [⟨1, "expense", 10000, "USD", 0⟩]⟩ ∧
    (-10000 : ℤ) < 0 ∧ ("checking" : String) ≠ "credit" := by
  refine ⟨by decide, by decide, by decide⟩

/-- **C4 (amended).** An accepted update reverses the prior transaction's
signed effect on the account balance (converted via the transaction's
original currency at the transaction's date) and then applies the updated
values' effect, with the record replacement in the same atomic unit — but
it performs none of create's rejection checks (no inactive-account and no
insufficient-funds validation). -/
theorem update_reverses_then_reapplies (s : LedgerState) (id : ℕ) (u : UpdateParams)
    (t : Tx) (hfind : findTx s.txs id = some t) (s' : LedgerState)
    (h : updateTransaction s id u = .ok s') :
    s'.account.currency = s.account.currency ∧
    s'.txs = replaceTx s.txs id (applyTxUpdates t u) ∧
    s'.account.balanceInMinorUnits =
      s.account.balanceInMinorUnits - txEffect s.account.currency t +
        txEffect s.account.currency (applyTxUpdates t u) := by
  obtain ⟨t0, oldAmt, newAmt, h1, h2, h4, hacct, htxs⟩ :=
    updateTransaction_ok_inv s id u s' h
  rw [hfind] at h1
  injection h1 with h1
  subst h1
  refine ⟨by rw [hacct], htxs, ?_⟩
  rw [hacct]
  dsimp only
  rw [txEffect_eq _ _ oldAmt h2, txEffect_eq _ _ newAmt h4]

/-- Witness for C4 (amended): updating a stored expense into an income. -/
theorem update_reverses_then_reapplies_witness :
    findTx [⟨3, "expense", 200, "USD", 0⟩] 3 = some ⟨3, "expense", 200, "USD", 0⟩ ∧
    updateTransaction ⟨⟨500, "USD", "checking", true⟩, [⟨3, "expense", 200, "USD", 0⟩]⟩ 3
        ⟨none, some "income", none, none⟩ =
      .ok ⟨⟨900, "USD", "checking", true⟩, [⟨3, "income", 200, "USD", 0⟩]⟩ ∧
    (LedgerState.account ⟨⟨900, "USD", "checking", true⟩, [⟨3, "income", 200, "USD", 0⟩]⟩).currency =
      (LedgerState.account ⟨⟨500, "USD", "checking", true⟩, [⟨3, "expense", 200, "USD", 0⟩]⟩).currency ∧
    (LedgerState.txs ⟨⟨900, "USD", "checking", true⟩, [⟨3, "income", 200, "USD", 0⟩]⟩) =
      replaceTx [⟨3, "expense", 200, "USD", 0⟩] 3
        (applyTxUpdates ⟨3, "expense", 200, "USD", 0⟩ ⟨none, some "income", none, none⟩) ∧
    (LedgerState.account ⟨⟨900, "USD", "checking", true⟩, [⟨3, "income", 200, "USD", 0⟩]⟩).balanceInMinorUnits =
      (500 : ℤ) - txEffect "USD" ⟨3, "expense", 200, "USD", 0⟩ +
        txEffect "USD"
          (applyTxUpdates ⟨3, "expense", 200, "USD", 0⟩ ⟨none, some "income", none, none⟩) := by
  have hfind : findTx [(⟨3, "expense", 200, "USD", 0⟩ : Tx)] 3 =
      some ⟨3, "expense", 200, "USD", 0⟩ := by decide
  have hupd : updateTransaction
      ⟨⟨500, "USD", "checking", true⟩, [⟨3, "expense", 200, "USD", 0⟩]⟩ 3
        ⟨none, some "income", none, none⟩ =
      .ok ⟨⟨900, "USD", "checking", true⟩, [⟨3, "income", 200, "USD", 0⟩]⟩ := by decide
  have := update_reverses_then_reapplies
    ⟨⟨500, "USD", "checking", true⟩, [⟨3, "expense", 200, "USD", 0⟩]⟩ 3
    ⟨none, some "income", none, none⟩ ⟨3, "expense", 200, "USD", 0⟩ hfind
    ⟨⟨900, "USD", "checking", true⟩, [⟨3, "income", 200, "USD", 0⟩]⟩ hupd
  exact ⟨hfind, hupd, this.1, this.2.1, this.2.2⟩

/-- **C6.** Creating an expense whose converted delta would drive a
non-credit account's balance below zero is rejected with the
insufficient-funds error, and under the rollback semantics of
`session.withTransaction` the stored state (balance and transaction
collection) is unchanged. -/
theorem insufficient_funds_create_rejected (s : LedgerState) (p : CreateParams)
    (newId : ℕ)
    (hty : p.type = "expense") (hcat : p.category ≠ "") (hamt : 0 < p.amount)
    (hcur : p.currency.getD s.account.currency ∈ supported)
    (hactive : s.account.isActive = true) (hcredit : s.account.type ≠ "credit")
    (delta : ℤ)
    (hdelta : toAccountCurrency (jsRound (p.amount * 100))
      (p.currency.getD s.account.currency) s.account.currency p.date = .ok delta)
    (hneg : s.account.balanceInMinorUnits - delta < 0) :
    createTransaction s p newId = .error .insufficientFunds ∧
    stepTxOp s (.create p newId) = s := by
  have hv4 : p.currency.all supported.contains = true := by
    rcases hc : p.currency with _ | c
    · rfl
    · rw [hc] at hcur
      simp only [Option.getD] at hcur
      exact List.elem_eq_true_of_mem hcur
  obtain ⟨r0, husd⟩ := convertCurrency_supported_ok (jsRound (p.amount * 100))
    (p.currency.getD s.account.currency) "USD" hcur (by decide) p.date
  have hmain : createTransaction s p newId = .error .insufficientFunds := by
    unfold createTransaction
    rw [if_neg (by simp [hty]), if_neg hcat, if_neg (not_le.mpr hamt),
      if_neg (by simp [hv4]), if_neg (by simp [hactive])]
    dsimp only
    rw [if_neg (by simp [truthyRate_supported _ hcur p.date]), husd]
    dsimp only
    rw [hdelta]
    dsimp only
    rw [if_pos ⟨hty, by simp only [hty]; norm_num; exact hneg, hcredit⟩]
  refine ⟨hmain, ?_⟩
  unfold stepTxOp applyTxOp
  dsimp only
  rw [hmain]

/-- Witness for C6: a 10.00 USD expense against a zero-balance checking
account. -/
theorem insufficient_funds_create_rejected_witness :
    (("expense" : String) = "expense") ∧ (("food" : String) ≠ "") ∧ ((0 : ℚ) < 10) ∧
    ((Option.none.getD "USD" : String) ∈ supported) ∧
    (true = true) ∧ (("checking" : String) ≠ "credit") ∧
    toAccountCurrency (jsRound ((10 : ℚ) * 100)) (Option.none.getD "USD") "USD" 0 =
      .ok 1000 ∧
    (0 : ℤ) - 1000 < 0 ∧
    createTransaction ⟨⟨0, "USD", "checking", true⟩, []⟩ ⟨"expense", "food", 10, none, 0⟩ 1 =
      .error .insufficientFunds ∧
    stepTxOp ⟨⟨0, "USD", "checking", true⟩, []⟩
      (.create ⟨"expense", "food", 10, none, 0⟩ 1) = ⟨⟨0, "USD", "checking", true⟩, []⟩ := by
  have hdelta : toAccountCurrency (jsRound ((10 : ℚ) * 100)) (Option.none.getD "USD")
      "USD" 0 = .ok 1000 := by
    unfold toAccountCurrency
    norm_num [jsRound]
  have := insufficient_funds_create_rejected ⟨⟨0, "USD", "checking", true⟩, []⟩
    ⟨"expense", "food", 10, none, 0⟩ 1 rfl (by decide) (by norm_num) (by decide) rfl
    (by decide) 1000 hdelta (by norm_num)
  exact ⟨rfl, by decide, by norm_num, by decide, rfl, by decide, hdelta, by norm_num,
    this.1, this.2⟩

/-- **C10 counterexample.** Updating a stored `transfer` transaction into an
`expense` changes the account balance (from 5000 to 3000 minor units), so
"updating a transaction whose type is 'transfer' never changes any
account's balance" is false when the update changes the type. -/
theorem transfer_update_changes_balance_cex :
    updateTransaction ⟨⟨5000, "USD", "checking", true⟩, [⟨7, "transfer", 2000, "USD", 0⟩]⟩ 7
        ⟨none, some "expense", none, none⟩ =
      .ok ⟨⟨3000, "USD", "checking", true⟩, [⟨7, "expense", 2000, "USD", 0⟩]⟩ ∧
    (3000 : ℤ) ≠ 5000 := by
  refine ⟨by decide, by decide⟩

/-- **C10 (amended).** Creating a `transfer` transaction, deleting a stored
`transfer` transaction, and updating a stored `transfer` transaction whose
updated type is still `transfer` never change the account's balance (the
balance-mutation branches only fire for `income` and `expense`); rejected
requests roll back and change nothing either. -/
theorem transfer_ops_preserve_balance (s : LedgerState) (op : TxOp)
    (h : isTransferOnlyOp s op) :
    (stepTxOp s op).account.balanceInMinorUnits = s.account.balanceInMinorUnits := by
  unfold stepTxOp
  rcases hop : applyTxOp s op with e | s2
  · rfl
  · cases op with
    | create p newId =>
      obtain ⟨delta, _, hacct, _⟩ := createTransaction_ok_inv s p newId s2 hop
      rw [hacct]
      dsimp only
      unfold isTransferOnlyOp at h
      rw [h]
      simp [signOf]
    | update id u =>
      obtain ⟨t, oldAmt, newAmt, h1, _, _, hacct, _⟩ :=
        updateTransaction_ok_inv s id u s2 hop
      unfold isTransferOnlyOp at h
      obtain ⟨hold, hnew⟩ := h t h1
      rw [hacct]
      dsimp only
      rw [hold, hnew]
      simp [signOf]
    | delete id =>
      obtain ⟨t, amt, h1, _, hacct, _⟩ := deleteTransaction_ok_inv s id s2 hop
      unfold isTransferOnlyOp at h
      rw [hacct]
      dsimp only
      rw [h t h1]
      simp [signOf]

/-- Witness for C10 (amended): creating a transfer transaction leaves the
balance unchanged. -/
theorem transfer_ops_preserve_balance_witness :
    isTransferOnlyOp ⟨⟨4000, "USD", "checking", true⟩, []⟩
      (.create ⟨"transfer", "move", 10, none, 0⟩ 1) ∧
    (stepTxOp ⟨⟨4000, "USD", "checking", true⟩, []⟩
        (.create ⟨"transfer", "move", 10, none, 0⟩ 1)).account.balanceInMinorUnits =
      (4000 : ℤ) := by
  have hop : isTransferOnlyOp ⟨⟨4000, "USD", "checking", true⟩, []⟩
      (.create ⟨"transfer", "move", 10, none, 0⟩ 1) := rfl
  exact ⟨hop, transfer_ops_preserve_balance ⟨⟨4000, "USD", "checking", true⟩, []⟩
    (.create ⟨"transfer", "move", 10, none, 0⟩ 1) hop⟩

end FinTracker
